import Mathlib

/-!
Verification of the DQN agent core (`dqn_agent.py`): replay buffer with
FIFO eviction, epsilon-greedy action selection, the Double-DQN / standard
TD-target computation in `learn`, the learning schedule of `step`, and the
Polyak soft update of the target network.

Modelling conventions:
* scalar floats (rewards, Q-values, network parameters, tau, gamma) are ℚ;
* a network forward pass is a function from a parameter vector (`List ℚ`)
  and a state to the list of per-action Q-values;
* randomness (`random.random()`, `random.choice`, `random.sample`) is made
  explicit: each call takes the drawn value(s) as a parameter;
* Python's dynamically typed deque cells are `Option (Experience σ)`, so the
  `if e is not None` filter in `ReplayBuffer.sample` is modelled faithfully;
* the optimizer (`optim.Adam`) is an external collaborator: it is a function
  from a loss function and a parameter vector to a new parameter vector.
-/

namespace DQN

/-- Module-level constant `BUFFER_SIZE = int(1e5)`. -/
def BUFFER_SIZE : ℕ := 100000

/-- Module-level constant `BATCH_SIZE = 64`. -/
def BATCH_SIZE : ℕ := 64

/-- Module-level constant `GAMMA = 0.99`. -/
def GAMMA : ℚ := 99 / 100

/-- Module-level constant `TAU = 1e-3`. -/
def TAU : ℚ := 1 / 1000

/-- Module-level constant `UPDATE_EVERY = 4`. -/
def UPDATE_EVERY : ℕ := 4

/-- Model of `torch.max(values, dim)` value component / `values.max(1)[0]`
on one row of Q-values: the maximum of a nonempty list (0 on the empty
list, which torch would reject). -/
def listMax : List ℚ → ℚ
  | [] => 0
  | [x] => x
  | x :: y :: ys => max x (listMax (y :: ys))

/-- Model of `np.argmax` / the index component of `torch.max(values, 1)` on
one row: index of the first occurrence of the maximum (lowest index wins
ties). -/
def argmaxIdx : List ℚ → ℕ
  | [] => 0
  | [_] => 0
  | x :: y :: ys => if x < listMax (y :: ys) then 1 + argmaxIdx (y :: ys) else 0

/-- Three-list pointwise zip, used for `rewards + gamma * next_max * (1 - dones)`. -/
def zipWith3 {α β γ δ : Type} (f : α → β → γ → δ) : List α → List β → List γ → List δ
  | a :: as, b :: bs, c :: cs => f a b c :: zipWith3 f as bs cs
  | _, _, _ => []

/-- The `Experience` namedtuple stored by the replay buffer:
`("state", "action", "reward", "next_state", "done")`. -/
structure Experience (σ : Type) where
  state : σ
  action : ℕ
  reward : ℚ
  next_state : σ
  done : Bool
deriving DecidableEq, Inhabited, Repr

/-- The `ReplayBuffer` object: `action_size`, a deque with `maxlen =
buffer_size`, and the construction-time `batch_size`. Cells are `Option`
because Python's deque is untyped; `add` only ever appends `some`. -/
structure ReplayBuffer (σ : Type) where
  action_size : ℕ
  maxlen : ℕ
  batch_size : ℕ
  memory : List (Option (Experience σ))
deriving DecidableEq, Repr

/-- `ReplayBuffer.__init__`: empty deque with `maxlen = buffer_size`
(the `seed` argument only reseeds the global RNG, which is explicit here). -/
def ReplayBuffer.init (action_size buffer_size batch_size : ℕ) : ReplayBuffer σ :=
  { action_size := action_size, maxlen := buffer_size, batch_size := batch_size,
    memory := [] }

/-- Appending to a `deque(maxlen = C)`: the new element goes to the back and
anything beyond the last `C` elements is discarded from the front (for a
deque respecting its bound this discards at most the single oldest cell). -/
def dequeAppend (maxlen : ℕ) (m : List α) (e : α) : List α :=
  (m ++ [e]).drop (m.length + 1 - maxlen)

/-- `ReplayBuffer.add`: build the `Experience` namedtuple from the arguments
and append it to the bounded deque. -/
def ReplayBuffer.add (b : ReplayBuffer σ) (state : σ) (action : ℕ) (reward : ℚ)
    (next_state : σ) (done : Bool) : ReplayBuffer σ :=
  { b with memory :=
      dequeAppend b.maxlen b.memory (some ⟨state, action, reward, next_state, done⟩) }

/-- `ReplayBuffer.__len__`: current number of stored cells. -/
def ReplayBuffer.size (b : ReplayBuffer σ) : ℕ :=
  b.memory.length

/-- Folding a sequence of `add` calls over a buffer (one call per listed
experience, in order). -/
def ReplayBuffer.addAll (b : ReplayBuffer σ) (es : List (Experience σ)) : ReplayBuffer σ :=
  es.foldl (fun acc e => acc.add e.state e.action e.reward e.next_state e.done) b

/-- Error raised by `random.sample` when the requested draw exceeds the
population (`ValueError: Sample larger than population`); the spec names
this condition `InsufficientData`. -/
inductive SampleError : Type
  | insufficientData : SampleError
deriving DecidableEq, Repr

/-- Model of `random.sample(population, k)`: the RNG's choice is the list
`idxs` of drawn positions (a real draw yields `k` distinct in-range
positions); the call fails exactly when `k` exceeds the population size. -/
def random_sample (population : List α) (k : ℕ) (idxs : List ℕ) :
    Except SampleError (List α) :=
  if population.length < k then .error .insufficientData
  else .ok (idxs.filterMap fun i => population.get? i)

/-- The five parallel arrays produced by collation in `ReplayBuffer.sample`
and consumed by `Agent.learn`. -/
structure LearnBatch (σ : Type) where
  states : List σ
  actions : List ℕ
  rewards : List ℚ
  next_states : List σ
  dones : List ℚ
deriving DecidableEq, Repr

/-- Collation inside `ReplayBuffer.sample`: the five comprehensions
`[e.f for e in experiences if e is not None]`; `done` is cast through
`astype(np.uint8)` then `.float()`, i.e. `True → 1.0`, `False → 0.0`. -/
def collate (experiences : List (Option (Experience σ))) : LearnBatch σ :=
  { states := (experiences.filterMap id).map (fun e => e.state)
  , actions := (experiences.filterMap id).map (fun e => e.action)
  , rewards := (experiences.filterMap id).map (fun e => e.reward)
  , next_states := (experiences.filterMap id).map (fun e => e.next_state)
  , dones := (experiences.filterMap id).map (fun e => if e.done then (1 : ℚ) else 0) }

/-- `ReplayBuffer.sample`: draw `self.batch_size` experiences (no batch-size
argument — the construction-time one is used) and collate them. -/
def ReplayBuffer.sample (b : ReplayBuffer σ) (idxs : List ℕ) :
    Except SampleError (LearnBatch σ) :=
  (random_sample b.memory b.batch_size idxs).map collate

/-- Bootstrap value selection in `Agent.learn`. With `double_dqn`:
`local_next_actions = argmax over qnetwork_local(next_states)` (detached),
then `torch.gather(target_values, 1, local_next_actions)`. Without:
`target_values.max(1)[0]`. `target_values = qnetwork_target(next_states)`
is detached in both modes. -/
def next_max_values (double_dqn : Bool) (localF targetF : σ → List ℚ)
    (next_states : List σ) : List ℚ :=
  let target_values := next_states.map targetF
  if double_dqn then
    let local_next_values := next_states.map localF
    let local_next_actions := local_next_values.map argmaxIdx
    List.zipWith (fun row a => row.getD a 0) target_values local_next_actions
  else
    target_values.map listMax

/-- TD-target computation in `Agent.learn`:
`targets = rewards + gamma * next_max_values * (1 - dones)`. -/
def learn_targets (double_dqn : Bool) (localF targetF : σ → List ℚ) (gamma : ℚ)
    (b : LearnBatch σ) : List ℚ :=
  zipWith3 (fun r m d => r + gamma * m * (1 - d))
    b.rewards (next_max_values double_dqn localF targetF b.next_states) b.dones

/-- `torch.gather(outputs, 1, actions)`: per sample, the Q-value of the
action actually taken. -/
def gather_outputs (outputs : List (List ℚ)) (actions : List ℕ) : List ℚ :=
  List.zipWith (fun row a => row.getD a 0) outputs actions

/-- `nn.MSELoss()` on two equally shaped value columns: mean squared error. -/
def mse (predicted target : List ℚ) : ℚ :=
  (List.zipWith (fun x y => (x - y) ^ 2) predicted target).sum / (predicted.length : ℚ)

/-- `Agent.soft_update`: for every parameter pair iterated in matching order,
`target_param ← tau * local_param + (1 - tau) * target_param`. -/
def soft_update (localP targetP : List ℚ) (tau : ℚ) : List ℚ :=
  List.zipWith (fun local_param target_param =>
    tau * local_param + (1 - tau) * target_param) localP targetP

/-- The `Agent` object state touched by the claims: the `double_dqn` flag,
the two networks' parameter vectors, the replay memory and the scheduling
counter `t_step`. A forward pass is an external function of the parameter
vector (`fwd` below), since the `QNetwork` architecture is an external
collaborator. -/
structure Agent (σ : Type) where
  action_size : ℕ
  double_dqn : Bool
  localP : List ℚ
  targetP : List ℚ
  memory : ReplayBuffer σ
  t_step : ℕ
deriving DecidableEq, Repr

/-- `Agent.__init__`: fresh replay buffer with the module constants and
`t_step = 0`; the two networks' initial parameter vectors come from the
external `QNetwork` constructor. -/
def Agent.init (action_size : ℕ) (double_dqn : Bool) (localP0 targetP0 : List ℚ) :
    Agent σ :=
  { action_size := action_size, double_dqn := double_dqn,
    localP := localP0, targetP := targetP0,
    memory := ReplayBuffer.init action_size BUFFER_SIZE BATCH_SIZE, t_step := 0 }

/-- `Agent.act`: compute `qnetwork_local(state)` in inference mode, then
epsilon-greedy: if `random.random() > eps` return `np.argmax` of the action
values, else `random.choice(np.arange(action_size))`. The uniform draw `r`
of `random.random()` (a value in `[0, 1)`) and the uniform draw `choice` of
`random.choice` are explicit parameters. -/
def Agent.act (a : Agent σ) (localF : List ℚ → σ → List ℚ) (state : σ) (eps : ℚ)
    (r : ℚ) (choice : ℕ) : ℕ :=
  let action_values := localF a.localP state
  if eps < r then argmaxIdx action_values else choice

/-- The loss `Agent.learn` hands to the optimizer, as a function of the
online parameter vector: MSE between the gathered online outputs on
`states` and the (detached, hence constant in the online parameters)
TD targets. -/
def learn_loss (fwd : List ℚ → σ → List ℚ) (a : Agent σ) (gamma : ℚ)
    (b : LearnBatch σ) : List ℚ → ℚ :=
  fun p => mse (gather_outputs (b.states.map (fwd p)) b.actions)
    (learn_targets a.double_dqn (fwd a.localP) (fwd a.targetP) gamma b)

/-- `Agent.learn`: compute the TD targets from the detached target network
(and, under `double_dqn`, the argmax of the online network on
`next_states`), take one optimizer step on the online parameters for the
MSE loss, then soft-update the target parameters with `TAU`. `opt` is the
external optimizer capability (`optim.Adam` bound at `__init__` to the
online parameters): new parameters from a loss function and the current
parameters. -/
def Agent.learn (a : Agent σ) (fwd : List ℚ → σ → List ℚ)
    (opt : (List ℚ → ℚ) → List ℚ → List ℚ) (b : LearnBatch σ) (gamma : ℚ) :
    Agent σ :=
  let localP1 := opt (learn_loss fwd a gamma b) a.localP
  let targetP1 := soft_update localP1 a.targetP TAU
  { a with localP := localP1, targetP := targetP1 }

/-- `Agent.step`: store the transition, advance `t_step` modulo
`UPDATE_EVERY`, and when the counter wrapped to zero and the buffer holds
strictly more than `BATCH_SIZE` experiences, sample a batch and `learn`.
The returned Bool records whether `learn` ran in this call; `idxs` is the
position draw `random.sample` would make if sampling happens. -/
def Agent.step (a : Agent σ) (fwd : List ℚ → σ → List ℚ)
    (opt : (List ℚ → ℚ) → List ℚ → List ℚ) (idxs : List ℕ)
    (state : σ) (action : ℕ) (reward : ℚ) (next_state : σ) (done : Bool) :
    Agent σ × Bool :=
  let a1 := { a with memory := a.memory.add state action reward next_state done }
  let a2 := { a1 with t_step := (a1.t_step + 1) % UPDATE_EVERY }
  if a2.t_step = 0 ∧ BATCH_SIZE < a2.memory.size then
    match a2.memory.sample idxs with
    | .ok b => (a2.learn fwd opt b GAMMA, true)
    | .error _ => (a2, false)
  else (a2, false)

/-- A run of `Agent.step` calls: one experience and one sampling draw per
call; the trace of Booleans records at which calls `learn` ran. -/
def Agent.run (fwd : List ℚ → σ → List ℚ)
    (opt : (List ℚ → ℚ) → List ℚ → List ℚ) :
    Agent σ → List (Experience σ × List ℕ) → List Bool
  | _, [] => []
  | a, c :: rest =>
    let res := a.step fwd opt c.2 c.1.state c.1.action c.1.reward c.1.next_state c.1.done
    res.2 :: Agent.run fwd opt res.1 rest

/-! Helper lemmas about the list primitives. -/

theorem getD_zipWith {α β γ : Type} (f : α → β → γ) (l1 : List α) (l2 : List β)
    (i : ℕ) (h1 : i < l1.length) (h2 : i < l2.length) (d1 : α) (d2 : β) (d3 : γ) :
    (List.zipWith f l1 l2).getD i d3 = f (l1.getD i d1) (l2.getD i d2) := by
  have hl : i < (List.zipWith f l1 l2).length := by
    rw [List.length_zipWith]; omega
  rw [List.getD_eq_getElem _ _ hl, List.getD_eq_getElem _ _ h1,
    List.getD_eq_getElem _ _ h2, List.getElem_zipWith]

theorem getD_map {α β : Type} (f : α → β) (l : List α) (i : ℕ) (h : i < l.length)
    (d1 : α) (d2 : β) : (l.map f).getD i d2 = f (l.getD i d1) := by
  have hl : i < (l.map f).length := by rw [List.length_map]; exact h
  rw [List.getD_eq_getElem _ _ hl, List.getD_eq_getElem _ _ h, List.getElem_map]

theorem getD_zipWith3 {α β γ δ : Type} (f : α → β → γ → δ) :
    ∀ (as : List α) (bs : List β) (cs : List γ) (i : ℕ),
    i < as.length → i < bs.length → i < cs.length →
    ∀ (da : α) (db : β) (dc : γ) (dd : δ),
    (zipWith3 f as bs cs).getD i dd = f (as.getD i da) (bs.getD i db) (cs.getD i dc)
  | a :: as, b :: bs, c :: cs, 0, _, _, _, da, db, dc, dd => by
    simp [zipWith3]
  | a :: as, b :: bs, c :: cs, i + 1, ha, hb, hc, da, db, dc, dd => by
    simp only [zipWith3, List.getD_cons_succ]
    exact getD_zipWith3 f as bs cs i (by simpa using ha) (by simpa using hb)
      (by simpa using hc) da db dc dd

theorem length_zipWith3 {α β γ δ : Type} (f : α → β → γ → δ) :
    ∀ (as : List α) (bs : List β) (cs : List γ),
    (zipWith3 f as bs cs).length = min as.length (min bs.length cs.length)
  | a :: as, b :: bs, c :: cs => by
    simp [zipWith3, length_zipWith3 f as bs cs]; omega
  | [], _, _ => by simp [zipWith3]
  | a :: as, [], _ => by simp [zipWith3]
  | a :: as, b :: bs, [] => by simp [zipWith3]

theorem listMax_cons_cons (x y : ℚ) (ys : List ℚ) :
    listMax (x :: y :: ys) = max x (listMax (y :: ys)) := rfl

theorem getD_le_listMax : ∀ (l : List ℚ) (i : ℕ), i < l.length →
    l.getD i 0 ≤ listMax l
  | [x], 0, _ => le_refl x
  | x :: y :: ys, 0, _ => le_max_left _ _
  | x :: y :: ys, i + 1, h => by
    rw [List.getD_cons_succ, listMax_cons_cons]
    exact le_trans (getD_le_listMax (y :: ys) i (by simpa using h)) (le_max_right _ _)

theorem listMax_mem : ∀ (l : List ℚ), l ≠ [] → listMax l ∈ l
  | [x], _ => by simp [listMax]
  | x :: y :: ys, _ => by
    rw [listMax_cons_cons]
    rcases max_cases x (listMax (y :: ys)) with ⟨h, _⟩ | ⟨h, _⟩
    · rw [h]; exact List.mem_cons_self _ _
    · rw [h]; exact List.mem_cons_of_mem _ (listMax_mem (y :: ys) (by simp))

theorem argmaxIdx_lt_length : ∀ (l : List ℚ), l ≠ [] → argmaxIdx l < l.length
  | [x], _ => by simp [argmaxIdx]
  | x :: y :: ys, _ => by
    rw [argmaxIdx]
    split
    · have := argmaxIdx_lt_length (y :: ys) (by simp)
      simpa [Nat.add_comm] using Nat.succ_lt_succ this
    · simp

theorem getD_argmaxIdx : ∀ (l : List ℚ), l ≠ [] →
    l.getD (argmaxIdx l) 0 = listMax l
  | [x], _ => rfl
  | x :: y :: ys, _ => by
    rw [argmaxIdx, listMax_cons_cons]
    split
    · next hlt =>
      rw [Nat.add_comm, List.getD_cons_succ,
        getD_argmaxIdx (y :: ys) (by simp)]
      exact (max_eq_right (le_of_lt hlt)).symm
    · next hge =>
      rw [List.getD_cons_zero]
      exact (max_eq_left (not_lt.mp hge)).symm

theorem getD_lt_of_lt_argmaxIdx : ∀ (l : List ℚ) (j : ℕ), j < argmaxIdx l →
    l.getD j 0 < listMax l
  | [x], j, h => by simp [argmaxIdx] at h
  | x :: y :: ys, j, h => by
    rw [argmaxIdx] at h
    rw [listMax_cons_cons]
    split at h
    · next hlt =>
      match j with
      | 0 =>
        rw [List.getD_cons_zero]
        exact lt_of_lt_of_le hlt (le_max_right _ _)
      | j + 1 =>
        rw [List.getD_cons_succ]
        have hj : j < argmaxIdx (y :: ys) := by omega
        exact lt_of_lt_of_le (getD_lt_of_lt_argmaxIdx (y :: ys) j hj)
          (le_max_right _ _)
    · omega

theorem length_dequeAppend {α : Type} (C : ℕ) (m : List α) (e : α) :
    (dequeAppend C m e).length = min (m.length + 1) C := by
  simp [dequeAppend]; omega

theorem drop_append_drop {α : Type} (x r : List α) (d N : ℕ) (hd : d ≤ x.length) :
    (x.drop d ++ r).drop N = (x ++ r).drop (d + N) := by
  have h1 : (x ++ r).drop d = x.drop d ++ r := by
    rw [List.drop_append_eq_append_drop, Nat.sub_eq_zero_of_le hd, List.drop_zero]
  rw [← h1, List.drop_drop]

theorem add_memory (b : ReplayBuffer σ) (s : σ) (ac : ℕ) (r : ℚ) (ns : σ) (d : Bool) :
    (b.add s ac r ns d).memory =
      (b.memory ++ [some (Experience.mk s ac r ns d)]).drop
        (b.memory.length + 1 - b.maxlen) := rfl

theorem addAll_memory : ∀ (es : List (Experience σ)) (b : ReplayBuffer σ),
    b.memory.length ≤ b.maxlen →
    (b.addAll es).memory =
      (b.memory ++ es.map some).drop (b.memory.length + es.length - b.maxlen)
  | [], b, hb => by
    simp [ReplayBuffer.addAll, Nat.sub_eq_zero_of_le hb]
  | e :: es, b, hb => by
    have hstep : b.addAll (e :: es) =
        (b.add e.state e.action e.reward e.next_state e.done).addAll es := rfl
    set b1 := b.add e.state e.action e.reward e.next_state e.done with hb1
    have hmem1 : b1.memory =
        (b.memory ++
            [some (Experience.mk e.state e.action e.reward e.next_state e.done)]).drop
          (b.memory.length + 1 - b.maxlen) := rfl
    have hml : b1.maxlen = b.maxlen := rfl
    have hlen1 : b1.memory.length ≤ b1.maxlen := by
      rw [hmem1, hml]
      simp only [List.length_drop, List.length_append, List.length_singleton]
      omega
    rw [hstep, addAll_memory es b1 hlen1, hml, hmem1]
    rw [List.length_drop, List.length_append, List.length_singleton]
    rw [drop_append_drop _ _ _ _ (by simp)]
    have harr : (b.memory.length + 1 - b.maxlen) +
        (b.memory.length + 1 - (b.memory.length + 1 - b.maxlen) + es.length - b.maxlen)
        = b.memory.length + (e :: es).length - b.maxlen := by
      simp only [List.length_cons]; omega
    rw [harr, List.append_assoc]
    rfl

/-- Claim C4: a `ReplayBuffer` of capacity `C` never exceeds size `C` under
any sequence of `add` calls, and after inserting `C + k` experiences the
memory holds exactly the most recent `C` of them in insertion order (the
oldest `k` evicted first-in-first-out). -/
theorem replay_buffer_capacity_fifo (σ : Type) (action_size C bs : ℕ)
    (es : List (Experience σ)) (k : ℕ) :
    ((ReplayBuffer.init action_size C bs).addAll es).size ≤ C ∧
    (es.length = C + k →
      ((ReplayBuffer.init action_size C bs).addAll es).memory = (es.drop k).map some) := by
  have hinit : (ReplayBuffer.init action_size C bs : ReplayBuffer σ).memory = [] := rfl
  have hml : (ReplayBuffer.init action_size C bs : ReplayBuffer σ).maxlen = C := rfl
  have hm := addAll_memory es (ReplayBuffer.init action_size C bs) (by rw [hinit, hml]; simp)
  rw [hinit, hml] at hm
  simp only [List.nil_append, List.length_nil, Nat.zero_add] at hm
  constructor
  · rw [ReplayBuffer.size, hm, List.length_drop, List.length_map]
    omega
  · intro hlen
    rw [hm, hlen, List.map_drop]
    congr 1
    omega

/-- Witness for C4 at a concrete run: capacity 2, three insertions, the
oldest is evicted and the two most recent remain. -/
theorem replay_buffer_capacity_fifo_witness :
    ((ReplayBuffer.init 1 2 1 : ReplayBuffer ℕ).addAll
        [⟨0, 0, 0, 0, false⟩, ⟨1, 0, 0, 0, false⟩, ⟨2, 0, 0, 0, false⟩]).memory =
      ([⟨1, 0, 0, 0, false⟩, ⟨2, 0, 0, 0, false⟩] : List (Experience ℕ)).map some := by
  have h := (replay_buffer_capacity_fifo ℕ 1 2 1
    [⟨0, 0, 0, 0, false⟩, ⟨1, 0, 0, 0, false⟩, ⟨2, 0, 0, 0, false⟩] 1).2 (by decide)
  simpa using h

theorem length_next_max_values (dd : Bool) (lF tF : σ → List ℚ) (ns : List σ) :
    (next_max_values dd lF tF ns).length = ns.length := by
  cases dd <;> simp [next_max_values]

theorem next_max_values_getD {σ : Type} [Inhabited σ] (lF tF : σ → List ℚ)
    (ns : List σ) (i : ℕ) (h : i < ns.length) :
    (next_max_values true lF tF ns).getD i 0 =
      (tF (ns.getD i default)).getD (argmaxIdx (lF (ns.getD i default))) 0 ∧
    (next_max_values false lF tF ns).getD i 0 = listMax (tF (ns.getD i default)) := by
  constructor
  · simp only [next_max_values, if_pos]
    rw [getD_zipWith _ _ _ i (by simpa using h) (by simpa using h) [] 0 0]
    rw [getD_map tF ns i h default, getD_map argmaxIdx _ i (by simpa using h) []]
    rw [getD_map lF ns i h default]
  · simp only [next_max_values, Bool.false_eq_true, if_neg, not_false_iff]
    rw [getD_map listMax _ i (by simpa using h) []]
    rw [getD_map tF ns i h default]

/-- Claim C1: in `learn` with `double_dqn` set, the bootstrap action of each
sample is the argmax of the online estimator on that sample's next state
(attaining the row maximum, lowest index on ties), and the bootstrapped value
is the target estimator's value gathered at exactly that index; with the flag
unset, the bootstrapped value is the per-sample maximum over the target
estimator's action values. -/
theorem learn_double_dqn_bootstrap {σ : Type} [Inhabited σ]
    (localF targetF : σ → List ℚ) (ns : List σ) (i : ℕ) (h : i < ns.length) :
    (next_max_values true localF targetF ns).getD i 0 =
      (targetF (ns.getD i default)).getD (argmaxIdx (localF (ns.getD i default))) 0
    ∧ (localF (ns.getD i default) ≠ [] →
        (localF (ns.getD i default)).getD (argmaxIdx (localF (ns.getD i default))) 0 =
          listMax (localF (ns.getD i default))
        ∧ ∀ j < argmaxIdx (localF (ns.getD i default)),
            (localF (ns.getD i default)).getD j 0 < listMax (localF (ns.getD i default)))
    ∧ (next_max_values false localF targetF ns).getD i 0 =
        listMax (targetF (ns.getD i default))
    ∧ (∀ j < (targetF (ns.getD i default)).length,
        (targetF (ns.getD i default)).getD j 0 ≤ listMax (targetF (ns.getD i default))) := by
  obtain ⟨h1, h2⟩ := next_max_values_getD localF targetF ns i h
  exact ⟨h1,
    fun hne => ⟨getD_argmaxIdx _ hne, fun j hj => getD_lt_of_lt_argmaxIdx _ j hj⟩,
    h2, fun j hj => getD_le_listMax _ j hj⟩

/-- Witness for C1: two actions, online table prefers action 1 on the next
state while the target table prefers action 0; the Double-DQN bootstrap takes
the target value at the online argmax (index 1, value 3), the standard
bootstrap takes the target maximum (10). -/
theorem learn_double_dqn_bootstrap_witness :
    (next_max_values true (fun _ : ℕ => [0, 5]) (fun _ : ℕ => [10, 3]) [7]).getD 0 0 = 3
    ∧ (next_max_values false (fun _ : ℕ => [0, 5]) (fun _ : ℕ => [10, 3]) [7]).getD 0 0 = 10 := by
  obtain ⟨h1, _, h3, _⟩ :=
    learn_double_dqn_bootstrap (fun _ : ℕ => [0, 5]) (fun _ : ℕ => [10, 3]) [7] 0
      (by decide)
  refine ⟨?_, ?_⟩
  · rw [h1]; decide
  · rw [h3]; decide

theorem learn_targets_getD {σ : Type} (dd : Bool) (localF targetF : σ → List ℚ)
    (gamma : ℚ) (b : LearnBatch σ) (i : ℕ) (hr : i < b.rewards.length)
    (hn : i < b.next_states.length) (hd : i < b.dones.length) :
    (learn_targets dd localF targetF gamma b).getD i 0 =
      b.rewards.getD i 0 +
        gamma * (next_max_values dd localF targetF b.next_states).getD i 0 *
          (1 - b.dones.getD i 0) := by
  unfold learn_targets
  exact getD_zipWith3 _ _ _ _ i hr
    (by rw [length_next_max_values]; exact hn) hd 0 0 0 0

/-- Claim C2: in `learn`, a sample whose collated `done` flag is `1.0` gets
TD target exactly equal to its reward, whatever the next state, either
estimator's values on it, and gamma; a sample with `done = 0.0` gets
`reward + gamma * next_max`. -/
theorem learn_terminal_target_is_reward {σ : Type} (dd : Bool)
    (localF targetF : σ → List ℚ) (gamma : ℚ) (b : LearnBatch σ) (i : ℕ)
    (hr : i < b.rewards.length) (hn : i < b.next_states.length)
    (hd : i < b.dones.length) :
    (b.dones.getD i 0 = 1 →
      (learn_targets dd localF targetF gamma b).getD i 0 = b.rewards.getD i 0)
    ∧ (b.dones.getD i 0 = 0 →
      (learn_targets dd localF targetF gamma b).getD i 0 =
        b.rewards.getD i 0 +
          gamma * (next_max_values dd localF targetF b.next_states).getD i 0) := by
  rw [learn_targets_getD dd localF targetF gamma b i hr hn hd]
  constructor
  · intro h1; rw [h1]; ring
  · intro h0; rw [h0]; ring

/-- Witness for C2: one terminal sample with a huge bootstrap value on the
next state and one non-terminal sample; the terminal target is the bare
reward, the non-terminal one is `reward + gamma * next_max`. -/
theorem learn_terminal_target_is_reward_witness :
    (learn_targets false (fun _ : ℕ => [0]) (fun _ : ℕ => [1000000]) (99 / 100)
        ⟨[0, 0], [0, 0], [2, 3], [5, 5], [1, 0]⟩).getD 0 0 = 2
    ∧ (learn_targets false (fun _ : ℕ => [0]) (fun _ : ℕ => [1000000]) (99 / 100)
        ⟨[0, 0], [0, 0], [2, 3], [5, 5], [1, 0]⟩).getD 1 0 = 3 + 99 / 100 * 1000000 := by
  constructor
  · have h := (learn_terminal_target_is_reward false (fun _ : ℕ => [0])
      (fun _ : ℕ => [1000000]) (99 / 100) ⟨[0, 0], [0, 0], [2, 3], [5, 5], [1, 0]⟩ 0
      (by decide) (by decide) (by decide)).1 (by decide)
    rw [h]; decide
  · have h := (learn_terminal_target_is_reward false (fun _ : ℕ => [0])
      (fun _ : ℕ => [1000000]) (99 / 100) ⟨[0, 0], [0, 0], [2, 3], [5, 5], [1, 0]⟩ 1
      (by decide) (by decide) (by decide)).2 (by decide)
    rw [h]
    simp [next_max_values, listMax]

theorem collate_map_some {σ : Type} (exps : List (Experience σ)) :
    collate (exps.map some) =
      { states := exps.map (fun e => e.state)
      , actions := exps.map (fun e => e.action)
      , rewards := exps.map (fun e => e.reward)
      , next_states := exps.map (fun e => e.next_state)
      , dones := exps.map (fun e => if e.done then (1 : ℚ) else 0) } := by
  unfold collate
  simp

/-- Claim C9: collation in `ReplayBuffer.sample` converts each stored `done`
flag to the float `1.0` for `true` and `0.0` for `false`, so that the
`(1 - done)` factor in the TD target of `learn` makes a terminal sample's
target exactly its reward and leaves a non-terminal sample's bootstrap term
unscaled. -/
theorem done_flag_collation {σ : Type} [Inhabited σ] (exps : List (Experience σ))
    (i : ℕ) (h : i < exps.length) :
    (collate (exps.map some)).dones.getD i 0 =
      (if (exps.getD i default).done then (1 : ℚ) else 0)
    ∧ ∀ (dd : Bool) (localF targetF : σ → List ℚ) (gamma : ℚ),
      ((exps.getD i default).done = true →
        (learn_targets dd localF targetF gamma (collate (exps.map some))).getD i 0 =
          (exps.getD i default).reward)
      ∧ ((exps.getD i default).done = false →
        (learn_targets dd localF targetF gamma (collate (exps.map some))).getD i 0 =
          (exps.getD i default).reward +
            gamma * (next_max_values dd localF targetF
              (collate (exps.map some)).next_states).getD i 0) := by
  rw [collate_map_some]
  have hdones : (exps.map (fun e => if e.done then (1 : ℚ) else 0)).getD i 0 =
      (if (exps.getD i default).done then (1 : ℚ) else 0) :=
    getD_map _ exps i h default 0
  have hrew : (exps.map (fun e => e.reward)).getD i 0 = (exps.getD i default).reward :=
    getD_map _ exps i h default 0
  refine ⟨hdones, fun dd localF targetF gamma => ?_⟩
  have hT := learn_targets_getD dd localF targetF gamma
    { states := exps.map (fun e => e.state)
    , actions := exps.map (fun e => e.action)
    , rewards := exps.map (fun e => e.reward)
    , next_states := exps.map (fun e => e.next_state)
    , dones := exps.map (fun e => if e.done then (1 : ℚ) else 0) } i
    (by simpa using h) (by simpa using h) (by simpa using h)
  simp only at hT
  rw [hT, hdones, hrew]
  constructor
  · intro hdt; rw [hdt]; norm_num
  · intro hdf; rw [hdf]; norm_num

/-- Witness for C9: a terminal and a non-terminal stored experience; the
collated dones are `[1, 0]` and the terminal TD target is the bare reward. -/
theorem done_flag_collation_witness :
    (collate (([⟨0, 0, 7, 1, true⟩, ⟨0, 0, 7, 1, false⟩] :
        List (Experience ℕ)).map some)).dones.getD 0 0 = 1
    ∧ (learn_targets false (fun _ : ℕ => [4]) (fun _ : ℕ => [4]) (99 / 100)
        (collate (([⟨0, 0, 7, 1, true⟩, ⟨0, 0, 7, 1, false⟩] :
          List (Experience ℕ)).map some))).getD 0 0 = 7 := by
  obtain ⟨h1, h2⟩ := done_flag_collation
    ([⟨0, 0, 7, 1, true⟩, ⟨0, 0, 7, 1, false⟩] : List (Experience ℕ)) 0 (by decide)
  refine ⟨by rw [h1]; decide, ?_⟩
  have := (h2 false (fun _ : ℕ => [4]) (fun _ : ℕ => [4]) (99 / 100)).1 (by decide)
  rw [this]
  rfl

theorem zipWith_snd {α β : Type} : ∀ (l : List α) (t : List β),
    l.length = t.length → List.zipWith (fun _ b => b) l t = t
  | [], [], _ => rfl
  | a :: l, b :: t, h => by
    simp only [List.zipWith_cons_cons]
    rw [zipWith_snd l t (by simpa using h)]
  | [], _ :: _, h => by simp at h
  | _ :: _, [], h => by simp at h

theorem zipWith_left_fuse {α β γ δ : Type} (g : α → γ → δ) (f : α → β → γ) :
    ∀ (l : List α) (t : List β),
    List.zipWith g l (List.zipWith f l t) = List.zipWith (fun a b => g a (f a b)) l t
  | [], _ => rfl
  | _ :: _, [] => rfl
  | a :: l, b :: t => by
    simp only [List.zipWith_cons_cons]
    rw [zipWith_left_fuse g f l t]

theorem soft_update_iterate (tau : ℚ) (lp tp : List ℚ) (h : lp.length = tp.length)
    (n : ℕ) :
    (fun t => soft_update lp t tau)^[n] tp =
      List.zipWith (fun l t0 => l - (l - t0) * (1 - tau) ^ n) lp tp := by
  induction n generalizing tp with
  | zero =>
    simp only [Function.iterate_zero, id_eq, pow_zero, mul_one]
    have hfun : (fun (l t0 : ℚ) => l - (l - t0)) = fun _ t0 => t0 := by
      funext l t0; ring
    rw [hfun, zipWith_snd lp tp h]
  | succ n ih =>
    rw [Function.iterate_succ_apply]
    have h1 : lp.length = (soft_update lp tp tau).length := by
      simp [soft_update, List.length_zipWith]; omega
    rw [ih (soft_update lp tp tau) h1]
    unfold soft_update
    rw [zipWith_left_fuse]
    have hfun : (fun (l t0 : ℚ) => l - (l - (tau * l + (1 - tau) * t0)) * (1 - tau) ^ n)
        = fun l t0 => l - (l - t0) * (1 - tau) ^ (n + 1) := by
      funext l t0; ring
    rw [hfun]

/-- Claim C3: `soft_update` maps every parameter pair, in matching order, to
`tau * online + (1 - tau) * target`; iterating it `n` times with the online
vector fixed leaves the target parameters at
`online - (online - target_0) * (1 - tau)^n`. -/
theorem soft_update_polyak (tau : ℚ) (lp tp : List ℚ) :
    (∀ i, i < lp.length → i < tp.length →
      (soft_update lp tp tau).getD i 0 =
        tau * lp.getD i 0 + (1 - tau) * tp.getD i 0)
    ∧ (lp.length = tp.length → ∀ n i, i < lp.length →
      ((fun t => soft_update lp t tau)^[n] tp).getD i 0 =
        lp.getD i 0 - (lp.getD i 0 - tp.getD i 0) * (1 - tau) ^ n) := by
  constructor
  · intro i h1 h2
    exact getD_zipWith _ lp tp i h1 h2 0 0 0
  · intro h n i hi
    rw [soft_update_iterate tau lp tp h n]
    exact getD_zipWith _ lp tp i hi (by omega) 0 0 0

/-- Witness for C3: tau = 1/2, a single parameter pair with online value 1
and initial target 0; after one update the target is 1/2, after two it is
3/4 = 1 - (1 - 0)·(1/2)². -/
theorem soft_update_polyak_witness :
    (soft_update [1] [0] (1 / 2)).getD 0 0 = 1 / 2 * 1 + (1 - 1 / 2) * 0
    ∧ ((fun t => soft_update [(1 : ℚ)] t (1 / 2))^[2] [0]).getD 0 0 =
        1 - (1 - 0) * (1 - 1 / 2) ^ 2 := by
  obtain ⟨h1, h2⟩ := soft_update_polyak (1 / 2) [1] [0]
  exact ⟨h1 0 (by decide) (by decide), h2 (by decide) 2 0 (by decide)⟩

theorem get?_eq_some_getD {α : Type} (l : List α) (j : ℕ) (d : α) (h : j < l.length) :
    l.get? j = some (l.getD j d) := by
  rw [List.get?_eq_getElem?, List.getElem?_eq_getElem h, List.getD_eq_getElem _ _ h]

theorem getD_mem {α : Type} (l : List α) (j : ℕ) (d : α) (h : j < l.length) :
    l.getD j d ∈ l := by
  rw [List.getD_eq_getElem _ _ h]
  exact List.getElem_mem h

theorem filterMap_get?_eq_map {α : Type} (l : List α) (d : α) :
    ∀ (idxs : List ℕ), (∀ j ∈ idxs, j < l.length) →
    idxs.filterMap (fun i => l.get? i) = idxs.map (fun j => l.getD j d)
  | [], _ => rfl
  | j :: rest, h => by
    rw [List.filterMap_cons, get?_eq_some_getD l j d (h j (List.mem_cons_self j rest))]
    simp only [List.map_cons]
    rw [filterMap_get?_eq_map l d rest (fun x hx => h x (List.mem_cons_of_mem j hx))]

/-- Claim C6: `ReplayBuffer.sample` (drawing `batch_size` positions without
replacement, modelled by the drawn index list) returns `batch_size` distinct
stored experiences when the buffer is large enough, and fails with the
`InsufficientData` condition (`random.sample`'s `ValueError`) when the
current size is smaller than the batch size. -/
theorem sample_insufficient_data {σ : Type} (b : ReplayBuffer σ) (idxs : List ℕ) :
    (b.memory.length < b.batch_size → b.sample idxs = .error .insufficientData)
    ∧ (b.batch_size ≤ b.memory.length → idxs.length = b.batch_size → idxs.Nodup →
      (∀ j ∈ idxs, j < b.memory.length) →
      ∃ sel, random_sample b.memory b.batch_size idxs = .ok sel
        ∧ b.sample idxs = .ok (collate sel)
        ∧ sel = idxs.map (fun j => b.memory.getD j none)
        ∧ sel.length = b.batch_size
        ∧ ∀ x ∈ sel, x ∈ b.memory) := by
  constructor
  · intro hlt
    rw [ReplayBuffer.sample, random_sample, if_pos hlt]
    rfl
  · intro hge hlen _hnodup hrange
    refine ⟨idxs.map (fun j => b.memory.getD j none), ?_, ?_, rfl, ?_, ?_⟩
    · rw [random_sample, if_neg (by omega)]
      rw [filterMap_get?_eq_map b.memory none idxs hrange]
    · rw [ReplayBuffer.sample, random_sample, if_neg (by omega)]
      rw [filterMap_get?_eq_map b.memory none idxs hrange]
      rfl
    · rw [List.length_map]; exact hlen
    · intro x hx
      obtain ⟨j, hj, rfl⟩ := List.mem_map.mp hx
      exact getD_mem b.memory j none (hrange j hj)

/-- Witness for C6: a two-cell buffer with `batch_size = 2`; drawing the two
distinct positions succeeds with both stored cells, and the same buffer
reports `InsufficientData` when its batch size exceeds its two cells. -/
theorem sample_insufficient_data_witness :
    (ReplayBuffer.sample
      { action_size := 1, maxlen := 5, batch_size := 3,
        memory := [some ⟨0, 0, 0, 0, false⟩, some ⟨1, 1, 1, 1, true⟩] }
      [0, 1] : Except SampleError (LearnBatch ℕ)) = .error .insufficientData
    ∧ ∃ sel, random_sample
        ([some ⟨0, 0, 0, 0, false⟩, some ⟨1, 1, 1, 1, true⟩] :
          List (Option (Experience ℕ))) 2 [1, 0] = .ok sel
      ∧ sel.length = 2 := by
  constructor
  · exact (sample_insufficient_data
      { action_size := 1, maxlen := 5, batch_size := 3,
        memory := [some ⟨0, 0, 0, 0, false⟩, some ⟨1, 1, 1, 1, true⟩] } [0, 1]).1
      (by decide)
  · obtain ⟨sel, h1, _, _, h4, _⟩ := (sample_insufficient_data
      { action_size := 1, maxlen := 5, batch_size := 2,
        memory := [some ⟨0, 0, 0, 0, false⟩, some ⟨1, 1, 1, 1, true⟩] } [1, 0]).2
      (by decide) (by decide) (by decide) (by decide)
    exact ⟨sel, h1, h4⟩

theorem length_filterMap_id_of_isSome {α : Type} :
    ∀ (l : List (Option α)), (∀ x ∈ l, x.isSome) → (l.filterMap id).length = l.length
  | [], _ => rfl
  | x :: xs, h => by
    obtain ⟨a, rfl⟩ := Option.isSome_iff_exists.mp (h x (List.mem_cons_self x xs))
    simp only [List.filterMap_cons, id_eq, List.length_cons]
    rw [length_filterMap_id_of_isSome xs (fun y hy => h y (List.mem_cons_of_mem _ hy))]

theorem addAll_memory_isSome {σ : Type} (action_size C bs : ℕ)
    (es : List (Experience σ)) :
    ∀ x ∈ ((ReplayBuffer.init action_size C bs).addAll es).memory, x.isSome := by
  intro x hx
  have hm := addAll_memory es (ReplayBuffer.init action_size C bs)
    (by simp [ReplayBuffer.init])
  rw [hm] at hx
  have hmem := List.mem_of_mem_drop hx
  simp only [ReplayBuffer.init, List.nil_append] at hmem
  obtain ⟨e, _, rfl⟩ := List.mem_map.mp hmem
  rfl

/-- Claim C10: `ReplayBuffer.sample` takes no batch-size argument, and on a
buffer reached by `add` calls (which only ever store constructed
experiences, never `None`) holding at least `batch_size` cells, it returns
five parallel arrays each of length exactly `batch_size`: the
`if e is not None` filter in the collation never removes an element. -/
theorem sample_parallel_array_lengths {σ : Type} (action_size C bs : ℕ)
    (es : List (Experience σ)) (idxs : List ℕ)
    (hge : bs ≤ ((ReplayBuffer.init action_size C bs).addAll es).memory.length)
    (hlen : idxs.length = bs)
    (hrange : ∀ j ∈ idxs,
      j < ((ReplayBuffer.init action_size C bs).addAll es).memory.length) :
    ∃ batch, ((ReplayBuffer.init action_size C bs).addAll es).sample idxs = .ok batch
      ∧ batch.states.length = bs ∧ batch.actions.length = bs
      ∧ batch.rewards.length = bs ∧ batch.next_states.length = bs
      ∧ batch.dones.length = bs := by
  set b := (ReplayBuffer.init action_size C bs).addAll es with hb
  have hbs : b.batch_size = bs := by
    rw [hb]
    have : ∀ (b0 : ReplayBuffer σ) (l : List (Experience σ)),
        (b0.addAll l).batch_size = b0.batch_size := by
      intro b0 l
      induction l generalizing b0 with
      | nil => rfl
      | cons e t ih => exact ih _
    rw [this]
    rfl
  have hsel : b.sample idxs = .ok (collate (idxs.map (fun j => b.memory.getD j none))) := by
    rw [ReplayBuffer.sample, random_sample, if_neg (by omega)]
    rw [filterMap_get?_eq_map b.memory none idxs hrange]
    rfl
  refine ⟨collate (idxs.map (fun j => b.memory.getD j none)), hsel, ?_⟩
  have hsome : ∀ x ∈ idxs.map (fun j => b.memory.getD j none), x.isSome := by
    intro x hx
    obtain ⟨j, hj, rfl⟩ := List.mem_map.mp hx
    exact addAll_memory_isSome action_size C bs es _ (getD_mem b.memory j none (hrange j hj))
  have hflen : ((idxs.map (fun j => b.memory.getD j none)).filterMap id).length = bs := by
    rw [length_filterMap_id_of_isSome _ hsome, List.length_map, hlen]
  refine ⟨?_, ?_, ?_, ?_, ?_⟩ <;>
    simp only [collate, List.length_map, hflen]

/-- Witness for C10: capacity 3, two insertions, batch size 2; sampling the
two positions yields five arrays of length 2 each. -/
theorem sample_parallel_array_lengths_witness :
    ∃ batch, ((ReplayBuffer.init 1 3 2 : ReplayBuffer ℕ).addAll
        [⟨0, 0, 0, 0, false⟩, ⟨1, 1, 1, 1, true⟩]).sample [1, 0] = .ok batch
      ∧ batch.states.length = 2 ∧ batch.actions.length = 2
      ∧ batch.rewards.length = 2 ∧ batch.next_states.length = 2
      ∧ batch.dones.length = 2 :=
  sample_parallel_array_lengths 1 3 2 [⟨0, 0, 0, 0, false⟩, ⟨1, 1, 1, 1, true⟩] [1, 0]
    (by decide) (by decide) (by decide)

/-- Claim C7: in `learn`, the target parameters are modified only by the
Polyak blend of `soft_update` (applied to the post-step online parameters
and the previous target parameters); the online parameters are the ones the
optimizer updates, and the loss handed to the optimizer depends on its
parameter argument only through the online forward pass on `states` — the
TD targets inside it are a detached constant, so no gradient flows through
the target estimator's outputs. -/
theorem target_updated_only_by_soft_update {σ : Type} (a : Agent σ)
    (fwd : List ℚ → σ → List ℚ) (opt : (List ℚ → ℚ) → List ℚ → List ℚ)
    (b : LearnBatch σ) (gamma : ℚ) :
    ((a.learn fwd opt b gamma).targetP =
        soft_update (a.learn fwd opt b gamma).localP a.targetP TAU)
    ∧ ((a.learn fwd opt b gamma).localP = opt (learn_loss fwd a gamma b) a.localP)
    ∧ (∀ p, learn_loss fwd a gamma b p =
        mse (gather_outputs (b.states.map (fwd p)) b.actions)
          (learn_targets a.double_dqn (fwd a.localP) (fwd a.targetP) gamma b))
    ∧ (∀ i, i < (a.learn fwd opt b gamma).localP.length → i < a.targetP.length →
        (a.learn fwd opt b gamma).targetP.getD i 0 =
          TAU * (a.learn fwd opt b gamma).localP.getD i 0 +
            (1 - TAU) * a.targetP.getD i 0) := by
  refine ⟨rfl, rfl, fun p => rfl, fun i h1 h2 => ?_⟩
  exact getD_zipWith _ _ _ i h1 h2 0 0 0

/-- Witness for C7 with the identity optimizer on a one-parameter agent:
the post-learn target parameter is the TAU-blend of the post-learn online
parameter and the previous target parameter. -/
theorem target_updated_only_by_soft_update_witness :
    ((Agent.init 1 false [2] [4] : Agent ℕ).learn (fun p _ => p) (fun _ p => p)
        ⟨[], [], [], [], []⟩ GAMMA).targetP.getD 0 0 =
      TAU * ((Agent.init 1 false [2] [4] : Agent ℕ).learn (fun p _ => p) (fun _ p => p)
        ⟨[], [], [], [], []⟩ GAMMA).localP.getD 0 0 +
        (1 - TAU) * (Agent.init 1 false [2] [4] : Agent ℕ).targetP.getD 0 0 :=
  (target_updated_only_by_soft_update (Agent.init 1 false [2] [4] : Agent ℕ)
    (fun p _ => p) (fun _ p => p) ⟨[], [], [], [], []⟩ GAMMA).2.2.2 0
    (by decide) (by decide)

/-- Counterexample for C8 as stated: `act` branches on
`random.random() > eps`, and Python's `random.random()` can return exactly
`0.0`; at the draw `r = 0` with `eps = 0` the comparison `0 > 0` fails and
`act` returns the random-branch action (here 1), not the argmax (here 0).
So `act` with `eps = 0` is not deterministic over the RNG draw. -/
theorem act_eps_zero_boundary_draw :
    (Agent.init 2 false [] [] : Agent ℕ).act (fun _ _ => [5, 0]) 0 0 0 1 = 1
    ∧ argmaxIdx [(5 : ℚ), 0] = 0 := by
  constructor
  · rfl
  · decide

/-- Claim C8 (amended): `act` returns the argmax of the online estimator's
action values exactly when the uniform draw `r` of `random.random()`
satisfies `r > eps`, and the uniformly drawn random action otherwise; with
`eps = 0` it therefore returns the argmax for every draw `r > 0` (all draws
except the boundary value `0.0`), and the argmax attains the row maximum
with ties broken by the lowest index. -/
theorem act_eps_greedy {σ : Type} (a : Agent σ) (localF : List ℚ → σ → List ℚ)
    (state : σ) (eps r : ℚ) (choice : ℕ) :
    (eps < r → a.act localF state eps r choice = argmaxIdx (localF a.localP state))
    ∧ (r ≤ eps → a.act localF state eps r choice = choice)
    ∧ (eps = 0 → 0 < r →
        a.act localF state eps r choice = argmaxIdx (localF a.localP state))
    ∧ (localF a.localP state ≠ [] →
        argmaxIdx (localF a.localP state) < (localF a.localP state).length
        ∧ (localF a.localP state).getD (argmaxIdx (localF a.localP state)) 0 =
            listMax (localF a.localP state)
        ∧ ∀ j < argmaxIdx (localF a.localP state),
            (localF a.localP state).getD j 0 < listMax (localF a.localP state)) := by
  refine ⟨?_, ?_, ?_, fun hne => ⟨argmaxIdx_lt_length _ hne, getD_argmaxIdx _ hne,
    fun j hj => getD_lt_of_lt_argmaxIdx _ j hj⟩⟩
  · intro h
    rw [Agent.act, if_pos h]
  · intro h
    rw [Agent.act, if_neg (not_lt.mpr h)]
  · intro he h
    rw [Agent.act, if_pos (he ▸ h)]

/-- Witness for C8's amended statement: with `eps = 0` and the draw
`r = 1/2 > 0`, `act` picks the greedy action 1 on the table `[0, 5]`. -/
theorem act_eps_greedy_witness :
    (Agent.init 2 false [] [] : Agent ℕ).act (fun _ _ => [0, 5]) 0 0 (1 / 2) 7 = 1 := by
  have h := (act_eps_greedy (Agent.init 2 false [] [] : Agent ℕ)
    (fun _ _ => [0, 5]) 0 0 (1 / 2) 7).2.2.1 rfl (by norm_num)
  rw [h]
  decide

theorem step_fst_memory {σ : Type} (a : Agent σ) (fwd : List ℚ → σ → List ℚ)
    (opt : (List ℚ → ℚ) → List ℚ → List ℚ) (idxs : List ℕ) (s : σ) (ac : ℕ)
    (r : ℚ) (ns : σ) (d : Bool) :
    (a.step fwd opt idxs s ac r ns d).1.memory = a.memory.add s ac r ns d := by
  unfold Agent.step
  dsimp only
  split
  · split <;> rfl
  · rfl

theorem step_fst_t_step {σ : Type} (a : Agent σ) (fwd : List ℚ → σ → List ℚ)
    (opt : (List ℚ → ℚ) → List ℚ → List ℚ) (idxs : List ℕ) (s : σ) (ac : ℕ)
    (r : ℚ) (ns : σ) (d : Bool) :
    (a.step fwd opt idxs s ac r ns d).1.t_step = (a.t_step + 1) % UPDATE_EVERY := by
  unfold Agent.step
  dsimp only
  split
  · split <;> rfl
  · rfl

theorem step_snd_true_intro {σ : Type} (a : Agent σ) (fwd : List ℚ → σ → List ℚ)
    (opt : (List ℚ → ℚ) → List ℚ → List ℚ) (idxs : List ℕ) (s : σ) (ac : ℕ)
    (r : ℚ) (ns : σ) (d : Bool) :
    (a.step fwd opt idxs s ac r ns d).2 = true →
      (a.t_step + 1) % UPDATE_EVERY = 0 ∧
        BATCH_SIZE < (a.memory.add s ac r ns d).size := by
  unfold Agent.step
  dsimp only
  split
  · next h => intro _; exact h
  · next h => intro hx; exact absurd hx (by simp)

theorem step_snd_of_guard {σ : Type} (a : Agent σ) (fwd : List ℚ → σ → List ℚ)
    (opt : (List ℚ → ℚ) → List ℚ → List ℚ) (idxs : List ℕ) (s : σ) (ac : ℕ)
    (r : ℚ) (ns : σ) (d : Bool) (hbs : a.memory.batch_size ≤ BATCH_SIZE)
    (h1 : (a.t_step + 1) % UPDATE_EVERY = 0)
    (h2 : BATCH_SIZE < (a.memory.add s ac r ns d).size) :
    (a.step fwd opt idxs s ac r ns d).2 = true := by
  unfold Agent.step
  dsimp only
  rw [if_pos (⟨h1, h2⟩ :
    (a.t_step + 1) % UPDATE_EVERY = 0 ∧ BATCH_SIZE < (a.memory.add s ac r ns d).size)]
  have hok : (a.memory.add s ac r ns d).sample idxs =
      .ok (collate ((idxs.filterMap fun i => (a.memory.add s ac r ns d).memory.get? i))) := by
    rw [ReplayBuffer.sample, random_sample, if_neg (by
      have : (a.memory.add s ac r ns d).batch_size = a.memory.batch_size := rfl
      rw [this]
      have hsz : (a.memory.add s ac r ns d).size =
        (a.memory.add s ac r ns d).memory.length := rfl
      rw [hsz] at h2
      omega)]
    rfl
  rw [hok]

/-- Helper: a learn trigger at position `j` of a run starting at `a` forces
`(a.t_step + j + 1) % UPDATE_EVERY = 0`. -/
theorem run_trigger_mod {σ : Type} (fwd : List ℚ → σ → List ℚ)
    (opt : (List ℚ → ℚ) → List ℚ → List ℚ) :
    ∀ (calls : List (Experience σ × List ℕ)) (a : Agent σ) (j : ℕ),
    (Agent.run fwd opt a calls).getD j false = true →
    (a.t_step + j + 1) % UPDATE_EVERY = 0
  | [], a, j => by
    intro h
    simp [Agent.run] at h
  | c :: rest, a, 0 => by
    intro h
    simp only [Agent.run, List.getD_cons_zero] at h
    simpa using (step_snd_true_intro a fwd opt c.2 c.1.state c.1.action c.1.reward
      c.1.next_state c.1.done h).1
  | c :: rest, a, j + 1 => by
    intro h
    simp only [Agent.run, List.getD_cons_succ] at h
    have ih := run_trigger_mod fwd opt rest _ j h
    rw [step_fst_t_step] at ih
    unfold UPDATE_EVERY at ih ⊢
    omega

/-- Claim C5: each `step` call stores the transition, advances the counter
modulo `UPDATE_EVERY = 4`, and (for the construction-time buffer, whose
`batch_size` is the module constant) invokes `learn` exactly when the
counter wrapped to zero and the buffer then holds strictly more than
`BATCH_SIZE = 64` experiences; hence `learn` never runs with the buffer at
or below `BATCH_SIZE`, and over any run two learn invocations are at least
`UPDATE_EVERY` step calls apart. -/
theorem step_learning_schedule {σ : Type} (a : Agent σ) (fwd : List ℚ → σ → List ℚ)
    (opt : (List ℚ → ℚ) → List ℚ → List ℚ) (idxs : List ℕ) (s : σ) (ac : ℕ)
    (r : ℚ) (ns : σ) (d : Bool) :
    ((a.step fwd opt idxs s ac r ns d).1.memory = a.memory.add s ac r ns d)
    ∧ ((a.step fwd opt idxs s ac r ns d).1.t_step = (a.t_step + 1) % UPDATE_EVERY)
    ∧ (a.memory.batch_size ≤ BATCH_SIZE →
        ((a.step fwd opt idxs s ac r ns d).2 = true ↔
          ((a.t_step + 1) % UPDATE_EVERY = 0 ∧
            BATCH_SIZE < (a.memory.add s ac r ns d).size)))
    ∧ ((a.step fwd opt idxs s ac r ns d).2 = true →
        BATCH_SIZE < (a.step fwd opt idxs s ac r ns d).1.memory.size)
    ∧ (∀ (calls : List (Experience σ × List ℕ)) (i k : ℕ), i < k →
        k < i + UPDATE_EVERY →
        (Agent.run fwd opt a calls).getD i false = true →
        (Agent.run fwd opt a calls).getD k false = false) := by
  refine ⟨step_fst_memory a fwd opt idxs s ac r ns d,
    step_fst_t_step a fwd opt idxs s ac r ns d,
    fun hbs => ⟨fun h => step_snd_true_intro a fwd opt idxs s ac r ns d h,
      fun h => step_snd_of_guard a fwd opt idxs s ac r ns d hbs h.1 h.2⟩,
    fun h => ?_, fun calls i k hik hk hi => ?_⟩
  · rw [step_fst_memory a fwd opt idxs s ac r ns d]
    exact (step_snd_true_intro a fwd opt idxs s ac r ns d h).2
  · cases hcase : (Agent.run fwd opt a calls).getD k false with
    | false => rfl
    | true =>
      have hmi := run_trigger_mod fwd opt calls a i hi
      have hmk := run_trigger_mod fwd opt calls a k hcase
      unfold UPDATE_EVERY at hmi hmk hk
      omega

/-- Witness for C5: a fresh agent's first `step` call advances the counter
to 1 and does not trigger learning (the counter has not wrapped and the
buffer holds a single experience). -/
theorem step_learning_schedule_witness :
    ((Agent.init 1 false [] [] : Agent ℕ).step (fun p _ => p) (fun _ p => p)
        [] 0 0 0 0 false).1.t_step = 1
    ∧ ((Agent.init 1 false [] [] : Agent ℕ).step (fun p _ => p) (fun _ p => p)
        [] 0 0 0 0 false).2 = false := by
  obtain ⟨h1, h2, h3, h4, h5⟩ := step_learning_schedule
    (Agent.init 1 false [] [] : Agent ℕ) (fun p _ => p) (fun _ p => p) [] 0 0 0 0 false
  refine ⟨by rw [h2]; decide, ?_⟩
  have hiff := h3 (by decide)
  cases hcase : ((Agent.init 1 false [] [] : Agent ℕ).step (fun p _ => p) (fun _ p => p)
      [] 0 0 0 0 false).2 with
  | false => rfl
  | true => exact absurd (hiff.mp hcase).1 (by decide)

end DQN
